import Mathlib

/-!
Verification of the BitTrackr ingestion and analytics engine
(`crypto_tracker.py`, class `CryptoPriceTracker`).

The embedding models:
- the stored table `price_data` as a list of `Row` values;
- the SQL queries of `get_price_history`, `get_all_data`,
  `get_gainers_losers` and `market_cap_analysis` as list filters
  followed by a stable sort (`List.insertionSort`), with the correlated
  subquery `MAX(timestamp)` per symbol made explicit;
- `store_data` as a fold that maps raw API records defensively and may
  skip individual records whose insert fails;
- `fetch_crypto_data` as a loop over an ordered attempt list, evaluated
  against an abstract network oracle `net : Attempt → AttemptOutcome`;
- `analyze_volatility` with exact real arithmetic (`Real.log`,
  `Real.sqrt`), population standard deviation as in `np.std`.

Rational numbers stand for the floating point price/percent columns and
integers for timestamps (only their ordering matters to the queries).
-/

/-- Uppercasing, `str.upper()` in the source. -/
def strUpper (s : String) : String := String.mk (s.data.map Char.toUpper)

/-- Lowercasing, `str.lower()` in the source. -/
def strLower (s : String) : String := String.mk (s.data.map Char.toLower)

/-- Whitespace trimming, `str.strip()` in the source. -/
def strTrim (s : String) : String :=
  String.mk (((s.data.dropWhile Char.isWhitespace).reverse.dropWhile
    Char.isWhitespace).reverse)

/-- `leadsWith n h` holds when the list `h` starts with `n`. -/
def leadsWith : List Char → List Char → Bool
  | [], _ => true
  | _ :: _, [] => false
  | a :: as, b :: bs => a == b && leadsWith as bs

/-- Substring search on character lists. -/
def hasSub (needle : List Char) : List Char → Bool
  | [] => leadsWith needle []
  | c :: rest => leadsWith needle (c :: rest) || hasSub needle rest

/-- `strHasSub hay needle` models Python's `needle in hay`. -/
def strHasSub (hay needle : String) : Bool := hasSub needle.data hay.data

/-- One row of the `price_data` table (schema of `setup_database`).
`percent_change_24h` is nullable in the schema, hence an `Option`. -/
structure Row where
  id : Nat
  symbol : String
  name : String
  price_usd : ℚ
  market_cap : ℚ
  volume_24h : ℚ
  percent_change_24h : Option ℚ
  percent_change_7d : Option ℚ
  timestamp : Int
  rank_position : Int
deriving DecidableEq, Repr

/-- Maximum of a list of integers, `none` on the empty list
(SQL `MAX` over an empty group is NULL). -/
def listMaxInt : List Int → Option Int
  | [] => none
  | x :: xs =>
    match listMaxInt xs with
    | none => some x
    | some m => some (max x m)

/-- `SELECT MAX(timestamp) FROM price_data p2 WHERE p2.symbol = p1.symbol`:
the correlated subquery of `get_gainers_losers` and `market_cap_analysis`. -/
def maxTs (db : List Row) (s : String) : Option Int :=
  listMaxInt ((db.filter (fun r => r.symbol == s)).map (fun r => r.timestamp))

/-- The 24h-change sort key; only applied to rows whose
`percent_change_24h` is non-null. -/
def pc24 (r : Row) : ℚ := r.percent_change_24h.getD 0

/-- The latest-snapshot view of `get_gainers_losers`: rows whose
timestamp equals the per-symbol maximum and whose 24h change is
non-null, ordered by 24h change descending. -/
def latestWithChange (db : List Row) : List Row :=
  List.insertionSort (fun r1 r2 => pc24 r2 ≤ pc24 r1)
    (db.filter (fun r =>
      (maxTs db r.symbol == some r.timestamp) && r.percent_change_24h.isSome))

/-- `get_gainers_losers`: first ten rows of the view as gainers, last
ten reversed as losers. -/
def getGainersLosers (db : List Row) : List Row × List Row :=
  let v := latestWithChange db
  if v.isEmpty then ([], [])
  else (v.take 10, (v.drop (v.length - 10)).reverse)

/-- The `market_cap_analysis` query: latest snapshot per symbol,
restricted to positive market cap, ordered by market cap descending,
`LIMIT 20`. -/
def latestWithCap (db : List Row) : List Row :=
  (List.insertionSort (fun r1 r2 => r2.market_cap ≤ r1.market_cap)
    (db.filter (fun r =>
      (maxTs db r.symbol == some r.timestamp) && decide (0 < r.market_cap)))).take 20

/-- `top_10 = df.head(10)` in `market_cap_analysis`. -/
def mcTop10 (db : List Row) : List Row := (latestWithCap db).take 10

/-- `others_cap = df[10:]['market_cap'].sum()` (0 when at most 10 rows). -/
def othersCap (db : List Row) : ℚ :=
  (((latestWithCap db).drop 10).map (fun r => r.market_cap)).sum

/-- The pie-chart segment sizes built by `market_cap_analysis`:
the top-10 market caps plus an aggregate, the latter only when positive. -/
def mcSegments (db : List Row) : List ℚ :=
  (mcTop10 db).map (fun r => r.market_cap)
    ++ (if 0 < othersCap db then [othersCap db] else [])

/-- The pie-chart labels built by `market_cap_analysis`. -/
def mcLabels (db : List Row) : List String :=
  (mcTop10 db).map (fun r => r.symbol)
    ++ (if 0 < othersCap db then ["Others"] else [])

/-- `get_price_history`: rows of one (uppercased) symbol in the window
`timestamp >= now - days`, ordered by timestamp ascending. -/
def getPriceHistory (db : List Row) (now : Int) (symbol : String) (days : Int) :
    List Row :=
  List.insertionSort (fun r1 r2 => r1.timestamp ≤ r2.timestamp)
    (db.filter (fun r =>
      (r.symbol == strUpper symbol) && decide (now - days ≤ r.timestamp)))

/-- The sort key of `get_all_data`: `ORDER BY timestamp, rank_position`. -/
def tsRankLe (r1 r2 : Row) : Prop :=
  r1.timestamp < r2.timestamp ∨
    (r1.timestamp = r2.timestamp ∧ r1.rank_position ≤ r2.rank_position)

instance : DecidableRel tsRankLe := fun r1 r2 => by
  unfold tsRankLe; infer_instance

/-- `get_all_data`: all rows in the window `timestamp >= now - days`,
ordered by timestamp then rank. -/
def getAllData (db : List Row) (now : Int) (days : Int) : List Row :=
  List.insertionSort tsRankLe
    (db.filter (fun r => decide (now - days ≤ r.timestamp)))

/-- Free-tier base URL (`https://api.coingecko.com/api/v3`). -/
def freeBase : String := "https://api.coingecko.com/api/v3"

/-- Paid-tier base URL (`https://pro-api.coingecko.com/api/v3`). -/
def proBase : String := "https://pro-api.coingecko.com/api/v3"

/-- The mutable configuration fields of `CryptoPriceTracker`. -/
structure TrackerState where
  db_path : String
  api_key : Option String
  api_tier : String
  base_url : String
deriving DecidableEq, Repr

/-- `CryptoPriceTracker.__init__`: resolve tier and base URL from the
environment values (`None` becomes `none`; an empty base-URL string is
falsy in Python and ignored, as is an unset one). -/
def trackerInit (db_path : String) (envKey envTier envBase : Option String) :
    TrackerState :=
  let tier := strLower (strTrim (envTier.getD ""))
  let defaultBase := if tier == "pro" then proBase else freeBase
  let base :=
    match envBase with
    | some b => if b == "" then defaultBase else b
    | none => defaultBase
  { db_path := db_path, api_key := envKey, api_tier := tier, base_url := base }

/-- One endpoint/header combination tried by `fetch_crypto_data`. -/
structure Attempt where
  base_url : String
  use_pro_header : Bool
deriving DecidableEq, Repr

/-- The free-endpoint attempt (no pro header). -/
def freeAttempt : Attempt := { base_url := freeBase, use_pro_header := false }

/-- The paid-endpoint attempt (pro header). -/
def proAttempt : Attempt := { base_url := proBase, use_pro_header := true }

/-- `CryptoPriceTracker._build_headers`: generic headers, plus the
credential under the tier-appropriate key when a (truthy) key is set. -/
def buildHeaders (st : TrackerState) (use_pro_header : Bool) :
    List (String × String) :=
  [("User-Agent", "Mozilla/5.0 (Windows NT 10.0; Win64; x64) AppleWebKit/537.36"),
   ("Accept", "application/json")]
    ++ (match st.api_key with
        | none => []
        | some k =>
          if k == "" then []
          else if use_pro_header then [("x-cg-pro-api-key", k)]
          else [("x-cg-demo-api-key", k)])

/-- `should_try_pro` in `fetch_crypto_data`. -/
def shouldTryPro (st : TrackerState) : Bool :=
  st.api_tier == "pro" || strHasSub st.base_url "pro-api"

/-- `try_order` in `fetch_crypto_data`: the paid attempt first when
configured, the free attempt always appended last. -/
def tryOrder (st : TrackerState) : List Attempt :=
  (if shouldTryPro st then [proAttempt] else []) ++ [freeAttempt]

/-- The parsed response body: a JSON array of `n` records, or some
other valid JSON value (the code never checks the shape). -/
inductive JsonBody where
  | arr (n : Nat)
  | nonArray
deriving DecidableEq, Repr

/-- What the network returns for one attempt: a transport/connection
error, or an HTTP response with a status and a body that either parses
as JSON (`some`) or is malformed (`none`). -/
inductive AttemptOutcome where
  | transportFail
  | httpResponse (status : Nat) (body : Option JsonBody)
deriving DecidableEq, Repr

/-- The exceptions caught by the attempt loop. -/
inductive FetchError where
  | transport
  | httpStatus (status : Nat)
  | badJson
deriving DecidableEq, Repr

/-- One iteration of the attempt loop: `raise_for_status()` fails the
attempt on status `>= 400`, then `response.json()` fails it on a
malformed body; otherwise the parsed body is the result. -/
def attemptEval : AttemptOutcome → Except FetchError JsonBody
  | .transportFail => .error .transport
  | .httpResponse status body =>
    if 400 ≤ status then .error (.httpStatus status)
    else
      match body with
      | none => .error .badJson
      | some j => .ok j

/-- The observable result of one `fetch_crypto_data` call: the returned
data (`none` models returning `None`), which attempt succeeded, which
attempts were issued in order, the surviving `last_error`, and the
tracker state after the call. -/
structure FetchResult where
  data : Option JsonBody
  okAttempt : Option Attempt
  attempted : List Attempt
  lastError : Option FetchError
  finalState : TrackerState
deriving DecidableEq, Repr

/-- The attempt loop of `fetch_crypto_data`: on the first success
return the parsed batch at once and set `self.base_url` to the
successful endpoint; on failure remember the error and continue. -/
def fetchLoop (st : TrackerState) (net : Attempt → AttemptOutcome) :
    List Attempt → FetchResult
  | [] =>
    { data := none, okAttempt := none, attempted := [], lastError := none,
      finalState := st }
  | a :: rest =>
    match attemptEval (net a) with
    | .ok j =>
      { data := some j, okAttempt := some a, attempted := [a],
        lastError := none, finalState := { st with base_url := a.base_url } }
    | .error e =>
      let r := fetchLoop st net rest
      { data := r.data, okAttempt := r.okAttempt, attempted := a :: r.attempted,
        lastError := some (r.lastError.getD e), finalState := r.finalState }

/-- `CryptoPriceTracker.fetch_crypto_data`, evaluated against an
abstract network `net`. -/
def fetchCryptoData (st : TrackerState) (net : Attempt → AttemptOutcome) :
    FetchResult :=
  fetchLoop st net (tryOrder st)

/-- One raw record of the provider's JSON array, with every field
optional (`dict.get` semantics in `store_data`). -/
structure RawRecord where
  symbol : Option String
  name : Option String
  current_price : Option ℚ
  market_cap : Option ℚ
  total_volume : Option ℚ
  price_change_percentage_24h : Option ℚ
  price_change_percentage_7d : Option ℚ
  market_cap_rank : Option Int
deriving DecidableEq, Repr

/-- The defensive field mapping of the `INSERT` in `store_data`:
missing fields default to `''`/`0`, the symbol is uppercased, and the
timestamp is assigned at write time (`DEFAULT CURRENT_TIMESTAMP`). -/
def rowOfRecord (id : Nat) (ts : Int) (c : RawRecord) : Row :=
  { id := id
    symbol := strUpper (c.symbol.getD "")
    name := c.name.getD ""
    price_usd := c.current_price.getD 0
    market_cap := c.market_cap.getD 0
    volume_24h := c.total_volume.getD 0
    percent_change_24h := some (c.price_change_percentage_24h.getD 0)
    percent_change_7d := some (c.price_change_percentage_7d.getD 0)
    timestamp := ts
    rank_position := c.market_cap_rank.getD 0 }

/-- The insert loop of `store_data`: a record whose insert raises
(`fails c = true`) is skipped, the remaining records are still
inserted. -/
def insertAll (db : List Row) (ts : Int) (fails : RawRecord → Bool) :
    List RawRecord → List Row
  | [] => db
  | c :: rest =>
    insertAll (if fails c then db else db ++ [rowOfRecord db.length ts c])
      ts fails rest

/-- `CryptoPriceTracker.store_data`: `None` or an empty batch is a
no-op (`if not crypto_data: return`), otherwise the insert loop runs. -/
def storeData (db : List Row) (batch : Option (List RawRecord))
    (fails : RawRecord → Bool) (ts : Int) : List Row :=
  match batch with
  | none => db
  | some [] => db
  | some (c :: rest) => insertAll db ts fails (c :: rest)

/-- Symbols in order of first appearance, with `seen` accumulating the
symbols already emitted: `df['symbol'].unique()` in pandas. -/
def firstUniquesAux (seen : List String) : List String → List String
  | [] => []
  | s :: rest =>
    if s ∈ seen then firstUniquesAux seen rest
    else s :: firstUniquesAux (s :: seen) rest

/-- `df['symbol'].unique()`: distinct symbols, first occurrence order. -/
def firstUniques (l : List String) : List String := firstUniquesAux [] l

/-- `df[df['symbol'] == symbol].sort_values('timestamp')` in
`analyze_volatility`. -/
def symbolRows (df : List Row) (s : String) : List Row :=
  List.insertionSort (fun r1 r2 => r1.timestamp ≤ r2.timestamp)
    (df.filter (fun r => r.symbol == s))

/-- `np.mean` over a list of reals. -/
noncomputable def listMean (l : List ℝ) : ℝ := l.sum / l.length

/-- `np.std` (population standard deviation, `ddof = 0`). -/
noncomputable def pstdDev (l : List ℝ) : ℝ :=
  Real.sqrt ((l.map (fun x => (x - listMean l) ^ 2)).sum / l.length)

/-- `np.diff(np.log(prices))`: consecutive log-returns. -/
noncomputable def logReturns (prices : List ℚ) : List ℝ :=
  List.zipWith (fun p q => Real.log (q : ℝ) - Real.log (p : ℝ))
    prices prices.tail

/-- Maximum of a nonempty list of rationals (`np.max`; 0 as junk value
on the empty list, which `analyze_volatility` never hits). -/
def qMax : List ℚ → ℚ
  | [] => 0
  | x :: xs => xs.foldl max x

/-- Minimum of a nonempty list of rationals (`np.min`). -/
def qMin : List ℚ → ℚ
  | [] => 0
  | x :: xs => xs.foldl min x

/-- One entry of the `volatility_data` list in `analyze_volatility`. -/
structure VolEntry where
  symbol : String
  name : String
  volatility : ℝ
  avg_price : ℚ
  price_range : ℚ

/-- The entry `analyze_volatility` appends for one symbol with rows
`rows` (already timestamp-sorted): volatility is the population
standard deviation of the log-returns scaled by the square root of the
number of returns. -/
noncomputable def mkVolEntry (s : String) (rows : List Row) : VolEntry :=
  let prices : List ℚ := rows.map (fun r => r.price_usd)
  let rets := logReturns prices
  { symbol := s
    name := ((rows.head?).map (fun r => r.name)).getD ""
    volatility := pstdDev rets * Real.sqrt (rets.length : ℝ)
    avg_price := prices.sum / prices.length
    price_range := qMax prices - qMin prices }

/-- `CryptoPriceTracker.analyze_volatility`: `None` on an empty window
(early return), otherwise one entry per symbol with at least two
observations, sorted by volatility descending. -/
noncomputable def analyzeVolatility (db : List Row) (now days : Int) :
    Option (List VolEntry) :=
  let df := getAllData db now days
  if df.isEmpty then none
  else
    some (List.insertionSort (fun e1 e2 => e2.volatility ≤ e1.volatility)
      ((firstUniques (df.map (fun r => r.symbol))).filterMap (fun s =>
        let rows := symbolRows df s
        if 1 < rows.length then some (mkVolEntry s rows) else none)))

/-- The fetch-attempt success condition as the specification words it:
a 2xx HTTP status and a body that parses as a JSON array. Stated for
comparison with `attemptEval`, which is translated from the code. -/
def specAttemptSuccess (o : AttemptOutcome) : Prop :=
  match o with
  | .httpResponse s (some (.arr _)) => 200 ≤ s ∧ s < 300
  | _ => False

/-! ### Concrete example data -/

/-- BTC at price 100, timestamp 1. -/
def vRow1 : Row :=
  { id := 0, symbol := "BTC", name := "Bitcoin", price_usd := 100,
    market_cap := 50, volume_24h := 10, percent_change_24h := some 5,
    percent_change_7d := some 1, timestamp := 1, rank_position := 1 }

/-- BTC at price 110, timestamp 2. -/
def vRow2 : Row :=
  { id := 2, symbol := "BTC", name := "Bitcoin", price_usd := 110,
    market_cap := 55, volume_24h := 10, percent_change_24h := some 5,
    percent_change_7d := some 1, timestamp := 2, rank_position := 1 }

/-- ETH at price 50, timestamp 1. -/
def vRow3 : Row :=
  { id := 1, symbol := "ETH", name := "Ethereum", price_usd := 50,
    market_cap := 20, volume_24h := 5, percent_change_24h := some (-3),
    percent_change_7d := some 1, timestamp := 1, rank_position := 2 }

/-- ETH at price 45, timestamp 2. -/
def vRow4 : Row :=
  { id := 3, symbol := "ETH", name := "Ethereum", price_usd := 45,
    market_cap := 18, volume_24h := 5, percent_change_24h := some (-3),
    percent_change_7d := some 1, timestamp := 2, rank_position := 2 }

/-- The two-batch scenario of the specification. -/
def vDb : List Row := [vRow1, vRow3, vRow2, vRow4]

/-- A store holding exactly two BTC observations. -/
def cDb : List Row := [vRow1, vRow2]

/-- BTC row inserted at timestamp 5, 24h change 1. -/
def rowT1 : Row :=
  { id := 0, symbol := "BTC", name := "Bitcoin", price_usd := 100,
    market_cap := 50, volume_24h := 10, percent_change_24h := some 1,
    percent_change_7d := some 1, timestamp := 5, rank_position := 1 }

/-- A second BTC row inserted at the same timestamp 5, 24h change 2. -/
def rowT2 : Row :=
  { id := 1, symbol := "BTC", name := "Bitcoin", price_usd := 101,
    market_cap := 50, volume_24h := 10, percent_change_24h := some 2,
    percent_change_7d := some 1, timestamp := 5, rank_position := 1 }

/-- A store where one symbol has two rows sharing the maximal
timestamp (two inserts within the same clock second). -/
def tieDb : List Row := [rowT1, rowT2]

/-- A network where every attempt hits a connection error. -/
def netFail : Attempt → AttemptOutcome := fun _ => .transportFail

/-- A network where every attempt returns 200 with a JSON array. -/
def netOk : Attempt → AttemptOutcome := fun _ => .httpResponse 200 (some (.arr 5))

/-- A tracker configured with no credential, no tier override and no
base-URL override. -/
def freeTracker : TrackerState := trackerInit "crypto_prices.db" none none none

/-- A tracker configured for the paid tier with a credential. -/
def proTracker : TrackerState :=
  trackerInit "crypto_prices.db" (some "key") (some "pro") none

/-- A record whose insert will be made to fail in the witnesses. -/
def recBad : RawRecord :=
  { symbol := some "BAD", name := some "Bad Coin", current_price := some 1,
    market_cap := some 1, total_volume := some 1,
    price_change_percentage_24h := some 1,
    price_change_percentage_7d := some 1, market_cap_rank := some 99 }

/-- A record whose insert succeeds in the witnesses. -/
def recGood : RawRecord :=
  { symbol := some "btc", name := some "Bitcoin", current_price := some 100,
    market_cap := some 50, total_volume := some 10,
    price_change_percentage_24h := some 5,
    price_change_percentage_7d := some 1, market_cap_rank := some 1 }

/-- Failure oracle: inserting the `"BAD"` record raises. -/
def failsBad : RawRecord → Bool := fun c => c.symbol == some "BAD"

/-! ### Helper lemmas -/

theorem sorted_key_desc (key : Row → ℚ) (l : List Row) :
    (List.insertionSort (fun r1 r2 => key r2 ≤ key r1) l).Sorted
      (fun r1 r2 => key r2 ≤ key r1) := by
  haveI : IsTotal Row (fun r1 r2 => key r2 ≤ key r1) :=
    ⟨fun a b => le_total (key b) (key a)⟩
  haveI : IsTrans Row (fun r1 r2 => key r2 ≤ key r1) :=
    ⟨fun a b c h1 h2 => le_trans h2 h1⟩
  exact List.sorted_insertionSort _ l

theorem pairwise_head_ge {key : Row → ℚ} {l : List Row}
    (h : l.Pairwise (fun r1 r2 => key r2 ≤ key r1)) :
    ∀ g, l.head? = some g → ∀ r ∈ l, key r ≤ key g := by
  cases l with
  | nil => simp
  | cons a t =>
    intro g hg r hr
    rw [List.head?_cons, Option.some_inj] at hg
    subst hg
    rcases List.mem_cons.mp hr with h1 | h2
    · exact le_of_eq (congrArg key h1)
    · exact (List.pairwise_cons.mp h).1 r h2

theorem pairwise_getLast_le {key : Row → ℚ} :
    ∀ {l : List Row}, l.Pairwise (fun r1 r2 => key r2 ≤ key r1) →
      ∀ b, l.getLast? = some b → ∀ r ∈ l, key b ≤ key r := by
  intro l
  induction l with
  | nil => simp
  | cons a t ih =>
    intro h b hb r hr
    cases t with
    | nil =>
      simp only [List.getLast?_singleton, Option.some_inj] at hb
      subst hb
      rcases List.mem_singleton.mp hr with rfl
      exact le_refl _
    | cons x t' =>
      rw [List.getLast?_cons_cons] at hb
      have hmem : b ∈ x :: t' := List.mem_of_getLast?_eq_some hb
      rcases List.mem_cons.mp hr with h1 | h2
      · subst h1
        exact (List.pairwise_cons.mp h).1 b hmem
      · exact ih (List.pairwise_cons.mp h).2 b hb r h2

theorem getLast?_drop_eq {α : Type} :
    ∀ (l : List α) (k : Nat), k < l.length → (l.drop k).getLast? = l.getLast? := by
  intro l
  induction l with
  | nil => intro k hk; simp at hk
  | cons a t ih =>
    intro k hk
    cases k with
    | zero => rfl
    | succ k' =>
      have hk' : k' < t.length := by simpa using hk
      cases t with
      | nil => simp at hk'
      | cons x t' =>
        rw [List.drop_succ_cons, ih k' hk', List.getLast?_cons_cons]

theorem countP_le_one_of_pairwise {α : Type} (p : α → Bool) {R : α → α → Prop} :
    ∀ l : List α, l.Pairwise R →
      (∀ a ∈ l, ∀ b ∈ l, p a = true → p b = true → R a b → False) →
      l.countP p ≤ 1 := by
  intro l
  induction l with
  | nil => intro _ _; simp
  | cons a t ih =>
    intro h hc
    obtain ⟨ha, ht⟩ := List.pairwise_cons.mp h
    rw [List.countP_cons]
    by_cases hp : p a = true
    · have hz : t.countP p = 0 := by
        rw [List.countP_eq_zero]
        intro b hb hpb
        exact hc a (List.mem_cons_self a t) b (List.mem_cons_of_mem a hb)
          hp hpb (ha b hb)
      simp [hz, hp]
    · have h1 : t.countP p ≤ 1 :=
        ih ht (fun x hx y hy px py hr =>
          hc x (List.mem_cons_of_mem a hx) y (List.mem_cons_of_mem a hy) px py hr)
      simp only [Bool.not_eq_true] at hp
      rw [hp]
      simpa using h1

theorem mem_firstUniquesAux (a : String) :
    ∀ (l seen : List String),
      a ∈ firstUniquesAux seen l ↔ a ∈ l ∧ a ∉ seen := by
  intro l
  induction l with
  | nil => intro seen; simp [firstUniquesAux]
  | cons s rest ih =>
    intro seen
    by_cases hs : s ∈ seen
    · rw [firstUniquesAux, if_pos hs, ih]
      constructor
      · rintro ⟨h1, h2⟩; exact ⟨List.mem_cons_of_mem s h1, h2⟩
      · rintro ⟨h1, h2⟩
        rcases List.mem_cons.mp h1 with rfl | h1'
        · exact absurd hs h2
        · exact ⟨h1', h2⟩
    · rw [firstUniquesAux, if_neg hs]
      by_cases has : a = s
      · subst has
        simp [hs]
      · constructor
        · intro h
          rcases List.mem_cons.mp h with h1 | h1
          · exact absurd h1 has
          · obtain ⟨h2, h3⟩ := (ih (s :: seen)).mp h1
            exact ⟨List.mem_cons_of_mem s h2,
              fun hmem => h3 (List.mem_cons_of_mem s hmem)⟩
        · rintro ⟨h1, h2⟩
          rcases List.mem_cons.mp h1 with rfl | h1'
          · exact List.mem_cons_self a _
          · refine List.mem_cons_of_mem s ((ih (s :: seen)).mpr ⟨h1', ?_⟩)
            intro hmem
            rcases List.mem_cons.mp hmem with rfl | hmem'
            · exact has rfl
            · exact h2 hmem'

theorem mem_firstUniques {a : String} {l : List String} :
    a ∈ firstUniques l ↔ a ∈ l := by
  rw [firstUniques, mem_firstUniquesAux]
  simp

theorem pstdDev_singleton (x : ℝ) : pstdDev [x] = 0 := by
  simp [pstdDev, listMean]

theorem mkVolEntry_pair_volatility (s : String) (a b : Row) :
    (mkVolEntry s [a, b]).volatility = 0 := by
  simp [mkVolEntry, logReturns, List.zipWith, pstdDev_singleton]

instance : IsTotal Row tsRankLe := by
  constructor
  intro a b
  unfold tsRankLe
  rcases lt_trichotomy a.timestamp b.timestamp with h | h | h
  · exact Or.inl (Or.inl h)
  · rcases le_total a.rank_position b.rank_position with hr | hr
    · exact Or.inl (Or.inr ⟨h, hr⟩)
    · exact Or.inr (Or.inr ⟨h.symm, hr⟩)
  · exact Or.inr (Or.inl h)

instance : IsTrans Row tsRankLe := by
  constructor
  intro a b c hab hbc
  unfold tsRankLe at *
  rcases hab with h1 | ⟨h1, h1'⟩ <;> rcases hbc with h2 | ⟨h2, h2'⟩
  · exact Or.inl (lt_trans h1 h2)
  · exact Or.inl (h2 ▸ h1)
  · exact Or.inl (h1 ▸ h2)
  · exact Or.inr ⟨h1.trans h2, le_trans h1' h2'⟩

theorem sorted_ts_asc (l : List Row) :
    (List.insertionSort (fun r1 r2 => r1.timestamp ≤ r2.timestamp) l).Sorted
      (fun r1 r2 => r1.timestamp ≤ r2.timestamp) := by
  haveI : IsTotal Row (fun r1 r2 => r1.timestamp ≤ r2.timestamp) :=
    ⟨fun a b => le_total a.timestamp b.timestamp⟩
  haveI : IsTrans Row (fun r1 r2 => r1.timestamp ≤ r2.timestamp) :=
    ⟨fun a b c h1 h2 => le_trans h1 h2⟩
  exact List.sorted_insertionSort _ l

/-- C7: the windowed queries `get_price_history` and `get_all_data`
return only rows with `timestamp >= now - days` (for the former, only
rows of the uppercased requested symbol), ordered by timestamp
ascending, with `rank_position` as secondary key in `get_all_data`. -/
theorem window_query_spec (db : List Row) (now days : Int) (symbol : String) :
    (∀ r ∈ getPriceHistory db now symbol days,
        now - days ≤ r.timestamp ∧ r.symbol = strUpper symbol)
    ∧ (getPriceHistory db now symbol days).Sorted
        (fun r1 r2 => r1.timestamp ≤ r2.timestamp)
    ∧ (∀ r ∈ getAllData db now days, now - days ≤ r.timestamp)
    ∧ (getAllData db now days).Sorted tsRankLe := by
  refine ⟨?_, sorted_ts_asc _, ?_, List.sorted_insertionSort _ _⟩
  · intro r hr
    rw [getPriceHistory, (List.perm_insertionSort _ _).mem_iff,
      List.mem_filter] at hr
    obtain ⟨-, hcond⟩ := hr
    rw [Bool.and_eq_true, beq_iff_eq, decide_eq_true_eq] at hcond
    exact ⟨hcond.2, hcond.1⟩
  · intro r hr
    rw [getAllData, (List.perm_insertionSort _ _).mem_iff,
      List.mem_filter] at hr
    obtain ⟨-, hcond⟩ := hr
    exact of_decide_eq_true hcond

/-- C7 witness: the windowed queries at a concrete store. -/
theorem window_query_witness :
    vRow2 ∈ getPriceHistory vDb 10 "btc" 14
    ∧ (10 : Int) - 14 ≤ vRow2.timestamp ∧ vRow2.symbol = strUpper "btc" :=
  ⟨by decide, (window_query_spec vDb 10 14 "btc").1 vRow2 (by decide)⟩

theorem insertAll_length (ts : Int) (fails : RawRecord → Bool) :
    ∀ (batch : List RawRecord) (db : List Row),
      (insertAll db ts fails batch).length
        = db.length + batch.countP (fun c => !fails c) := by
  intro batch
  induction batch with
  | nil => intro db; simp [insertAll]
  | cons c rest ih =>
    intro db
    rw [insertAll, ih, List.countP_cons]
    by_cases hc : fails c = true
    · simp [hc]
    · simp only [Bool.not_eq_true] at hc
      simp [hc]
      omega

theorem insertAll_keeps_front (ts : Int) (fails : RawRecord → Bool) :
    ∀ (batch : List RawRecord) (db : List Row),
      db <+: insertAll db ts fails batch := by
  intro batch
  induction batch with
  | nil => intro db; exact List.prefix_refl db
  | cons c rest ih =>
    intro db
    rw [insertAll]
    by_cases hc : fails c = true
    · rw [if_pos hc]; exact ih db
    · rw [if_neg hc]
      exact List.IsPrefix.trans (List.prefix_append db _) (ih _)

theorem storeData_eq_insertAll (db : List Row) (batch : List RawRecord)
    (fails : RawRecord → Bool) (ts : Int) :
    storeData db (some batch) fails ts = insertAll db ts fails batch := by
  cases batch with
  | nil => rfl
  | cons c rest => rfl

/-- C8: `store_data` has partial-success semantics. A `None` or empty
batch is a no-op; a batch inserts exactly one row per record whose
insert does not fail and preserves the existing rows as a prefix; a
failing record is skipped without affecting the rest of the batch. -/
theorem store_data_spec (db : List Row) (fails : RawRecord → Bool) (ts : Int) :
    storeData db none fails ts = db
    ∧ storeData db (some []) fails ts = db
    ∧ (∀ batch, (storeData db (some batch) fails ts).length
        = db.length + batch.countP (fun c => !fails c))
    ∧ (∀ batch, db <+: storeData db (some batch) fails ts)
    ∧ (∀ c batch, fails c = true →
        storeData db (some (c :: batch)) fails ts
          = storeData db (some batch) fails ts) := by
  refine ⟨rfl, rfl, ?_, ?_, ?_⟩
  · intro batch
    rw [storeData_eq_insertAll, insertAll_length]
  · intro batch
    rw [storeData_eq_insertAll]
    exact insertAll_keeps_front ts fails batch db
  · intro c batch hc
    rw [storeData_eq_insertAll, storeData_eq_insertAll, insertAll, if_pos hc]

/-- C8 witness: a failing record in front of a batch does not abort the
rest of the batch at a concrete store. -/
theorem store_data_witness :
    failsBad recBad = true
    ∧ storeData [] (some [recBad, recGood]) failsBad 7
      = storeData [] (some [recGood]) failsBad 7
    ∧ (storeData [] (some [recBad, recGood]) failsBad 7).length
      = 0 + [recBad, recGood].countP (fun c => !failsBad c) :=
  ⟨by decide, (store_data_spec [] failsBad 7).2.2.2.2 recBad [recGood] (by decide),
    by
      have h := (store_data_spec [] failsBad 7).2.2.1 [recBad, recGood]
      simpa using h⟩

/-- C6: the market-cap breakdown emits at most 11 segments: the top 10
positive-market-cap latest snapshots individually (ordered descending),
plus one aggregate equal to the 11th-20th sum, present exactly when
that sum is positive. -/
theorem market_cap_segments_spec (db : List Row) :
    (mcSegments db).length ≤ 11
    ∧ (0 < othersCap db →
        mcSegments db = (mcTop10 db).map (fun r => r.market_cap) ++ [othersCap db]
        ∧ mcLabels db = (mcTop10 db).map (fun r => r.symbol) ++ ["Others"])
    ∧ (¬ 0 < othersCap db →
        mcSegments db = (mcTop10 db).map (fun r => r.market_cap)
        ∧ mcLabels db = (mcTop10 db).map (fun r => r.symbol))
    ∧ (mcTop10 db).length ≤ 10
    ∧ (∀ r ∈ mcTop10 db, 0 < r.market_cap ∧ maxTs db r.symbol = some r.timestamp)
    ∧ (mcTop10 db).Sorted (fun r1 r2 => r2.market_cap ≤ r1.market_cap)
    ∧ othersCap db = (((latestWithCap db).drop 10).map (fun r => r.market_cap)).sum := by
  have hlen10 : (mcTop10 db).length ≤ 10 := by
    rw [mcTop10]
    have := List.length_take_le 10 (latestWithCap db)
    omega
  refine ⟨?_, ?_, ?_, hlen10, ?_, ?_, rfl⟩
  · rw [mcSegments]
    rw [List.length_append, List.length_map]
    have h2 : (if 0 < othersCap db then [othersCap db] else []).length ≤ 1 := by
      by_cases h : 0 < othersCap db <;> simp [h]
    omega
  · intro h
    rw [mcSegments, if_pos h, mcLabels, if_pos h]
    exact ⟨rfl, rfl⟩
  · intro h
    rw [mcSegments, if_neg h, mcLabels, if_neg h]
    exact ⟨List.append_nil _, List.append_nil _⟩
  · intro r hr
    have hr2 : r ∈ latestWithCap db := List.mem_of_mem_take hr
    rw [latestWithCap] at hr2
    have hr3 := List.mem_of_mem_take hr2
    rw [(List.perm_insertionSort _ _).mem_iff, List.mem_filter] at hr3
    obtain ⟨-, hcond⟩ := hr3
    rw [Bool.and_eq_true, beq_iff_eq, decide_eq_true_eq] at hcond
    exact ⟨hcond.2, hcond.1⟩
  · have hs : (List.insertionSort (fun r1 r2 => r2.market_cap ≤ r1.market_cap)
        (db.filter (fun r =>
          (maxTs db r.symbol == some r.timestamp) && decide (0 < r.market_cap)))).Sorted
        (fun r1 r2 => r2.market_cap ≤ r1.market_cap) :=
      sorted_key_desc (fun r => r.market_cap) _
    have hsub : List.Sublist (mcTop10 db) (List.insertionSort
        (fun r1 r2 => r2.market_cap ≤ r1.market_cap)
        (db.filter (fun r =>
          (maxTs db r.symbol == some r.timestamp) && decide (0 < r.market_cap)))) := by
      rw [mcTop10, latestWithCap]
      exact (List.take_sublist _ _).trans (List.take_sublist _ _)
    exact List.Pairwise.sublist hsub hs

/-- C6 witness: the breakdown at a concrete store where the aggregate
sum is not positive and hence omitted. -/
theorem market_cap_segments_witness :
    ¬ 0 < othersCap vDb
    ∧ mcSegments vDb = (mcTop10 vDb).map (fun r => r.market_cap)
    ∧ mcLabels vDb = (mcTop10 vDb).map (fun r => r.symbol) :=
  ⟨by decide, ((market_cap_segments_spec vDb).2.2.1 (by decide)).1,
    ((market_cap_segments_spec vDb).2.2.1 (by decide)).2⟩

theorem head?_take_of_pos {α : Type} {n : Nat} (h : 0 < n) (l : List α) :
    (l.take n).head? = l.head? := by
  cases l with
  | nil => simp
  | cons a t =>
    cases n with
    | zero => exact absurd h (lt_irrefl 0)
    | succ m => rw [List.take_succ_cons, List.head?_cons, List.head?_cons]

/-- C5: `get_gainers_losers` returns at most ten gainers and ten
losers; the first gainer maximizes the 24h change over the
latest-snapshot view and the first loser minimizes it; with at most ten
rows both lists contain exactly the available rows. -/
theorem gainers_losers_spec (db : List Row) :
    (getGainersLosers db).1.length ≤ 10
    ∧ (getGainersLosers db).2.length ≤ 10
    ∧ (∀ g, (getGainersLosers db).1.head? = some g →
        ∀ r ∈ latestWithChange db, pc24 r ≤ pc24 g)
    ∧ (∀ l0, (getGainersLosers db).2.head? = some l0 →
        ∀ r ∈ latestWithChange db, pc24 l0 ≤ pc24 r)
    ∧ ((latestWithChange db).length ≤ 10 →
        (getGainersLosers db).1 = latestWithChange db
        ∧ (getGainersLosers db).2 = (latestWithChange db).reverse) := by
  have hsorted : (latestWithChange db).Pairwise (fun r1 r2 => pc24 r2 ≤ pc24 r1) :=
    sorted_key_desc pc24 _
  by_cases hv : (latestWithChange db).isEmpty = true
  · have hnil : latestWithChange db = [] := List.isEmpty_iff.mp hv
    rw [getGainersLosers, hnil]
    simp
  · have hne : latestWithChange db ≠ [] := by
      intro hcontra
      rw [hcontra] at hv
      exact hv rfl
    have hpos : 0 < (latestWithChange db).length := List.length_pos.mpr hne
    have hgl : getGainersLosers db =
        ((latestWithChange db).take 10,
          ((latestWithChange db).drop ((latestWithChange db).length - 10)).reverse) := by
      rw [getGainersLosers, if_neg hv]
    rw [hgl]
    dsimp only
    refine ⟨?_, ?_, ?_, ?_, ?_⟩
    · have := List.length_take_le 10 (latestWithChange db)
      omega
    · rw [List.length_reverse, List.length_drop]
      omega
    · intro g hg r hr
      rw [head?_take_of_pos (by omega)] at hg
      exact pairwise_head_ge hsorted g hg r hr
    · intro l0 hl0 r hr
      rw [List.head?_reverse] at hl0
      rw [getLast?_drop_eq _ _ (by omega)] at hl0
      exact pairwise_getLast_le hsorted l0 hl0 r hr
    · intro hlen
      constructor
      · exact List.take_of_length_le hlen
      · have hz : (latestWithChange db).length - 10 = 0 := by omega
        rw [hz, List.drop_zero]

/-- C5 witness: at a concrete store with two latest snapshots the
gainers are the whole view and the losers its reverse. -/
theorem gainers_losers_witness :
    (latestWithChange vDb).length ≤ 10
    ∧ (getGainersLosers vDb).1 = latestWithChange vDb
    ∧ (getGainersLosers vDb).2 = (latestWithChange vDb).reverse :=
  ⟨by decide, ((gainers_losers_spec vDb).2.2.2.2 (by decide)).1,
    ((gainers_losers_spec vDb).2.2.2.2 (by decide)).2⟩

/-- C2 counterexample: when two rows of one symbol share the maximal
timestamp (two inserts in the same clock second), the latest-snapshot
view of `get_gainers_losers` returns both of them, so it does not
return at most one row per distinct symbol. -/
theorem latest_view_counterexample :
    ((latestWithChange tieDb).filter (fun r => r.symbol == "BTC")).length = 2
    ∧ rowT1 ∈ latestWithChange tieDb ∧ rowT2 ∈ latestWithChange tieDb
    ∧ rowT1 ≠ rowT2 ∧ rowT1.symbol = rowT2.symbol := by
  refine ⟨by decide, by decide, by decide, by decide, rfl⟩

/-- C2 (amended): every row of the latest-snapshot view attains the
maximal timestamp of its symbol and has a non-null 24h change, the view
is ordered by 24h change descending, and — provided no two rows of one
symbol share a timestamp — it has at most one row per distinct symbol. -/
theorem latest_view_spec (db : List Row)
    (hnt : db.Pairwise (fun r1 r2 => r1.symbol = r2.symbol →
      r1.timestamp ≠ r2.timestamp)) :
    (∀ s, ((latestWithChange db).filter (fun r => r.symbol == s)).length ≤ 1)
    ∧ (∀ r ∈ latestWithChange db,
        maxTs db r.symbol = some r.timestamp ∧ r.percent_change_24h.isSome = true)
    ∧ (latestWithChange db).Sorted (fun r1 r2 => pc24 r2 ≤ pc24 r1) := by
  refine ⟨?_, ?_, sorted_key_desc pc24 _⟩
  · intro s
    rw [← List.countP_eq_length_filter]
    rw [latestWithChange]
    rw [(List.perm_insertionSort _ _).countP_eq]
    refine countP_le_one_of_pairwise (fun r => r.symbol == s) _
      (List.Pairwise.filter _ hnt) ?_
    intro a ha b hb hpa hpb hR
    rw [List.mem_filter, Bool.and_eq_true, beq_iff_eq] at ha hb
    rw [beq_iff_eq] at hpa hpb
    have hts : a.timestamp = b.timestamp := by
      have h1 : maxTs db a.symbol = some a.timestamp := ha.2.1
      have h2 : maxTs db b.symbol = some b.timestamp := hb.2.1
      rw [hpa] at h1
      rw [hpb] at h2
      rw [h1] at h2
      exact Option.some_inj.mp h2
    exact hR (hpa.trans hpb.symm) hts
  · intro r hr
    rw [latestWithChange, (List.perm_insertionSort _ _).mem_iff,
      List.mem_filter, Bool.and_eq_true, beq_iff_eq] at hr
    exact ⟨hr.2.1, hr.2.2⟩

/-- C2 witness: at a tie-free concrete store the view keeps at most one
BTC row. -/
theorem latest_view_witness :
    vDb.Pairwise (fun r1 r2 => r1.symbol = r2.symbol →
      r1.timestamp ≠ r2.timestamp)
    ∧ ((latestWithChange vDb).filter (fun r => r.symbol == "BTC")).length ≤ 1 :=
  ⟨by decide, (latest_view_spec vDb (by decide)).1 "BTC"⟩

/-- C3: the free endpoint is the final attempt of every fetch call; if
the paid attempt fails the free attempt is still tried; the call
returns no data exactly when every attempt fails, and in that case the
error surfaced is the one of the last (free) attempt. -/
theorem fetch_fallback_spec (st : TrackerState) (net : Attempt → AttemptOutcome) :
    (tryOrder st).getLast? = some freeAttempt
    ∧ (shouldTryPro st = true →
        (∃ e, attemptEval (net proAttempt) = .error e) →
        freeAttempt ∈ (fetchCryptoData st net).attempted)
    ∧ ((fetchCryptoData st net).data = none ↔
        ∀ a ∈ tryOrder st, ∃ e, attemptEval (net a) = .error e)
    ∧ ((fetchCryptoData st net).data = none →
        ∃ e, attemptEval (net freeAttempt) = .error e
          ∧ (fetchCryptoData st net).lastError = some e) := by
  by_cases hb : shouldTryPro st = true
  · have hto : tryOrder st = [proAttempt, freeAttempt] := by
      rw [tryOrder, if_pos hb]
      rfl
    rw [fetchCryptoData, hto]
    refine ⟨by simp, ?_, ?_, ?_⟩
    · rintro - ⟨e, he⟩
      cases hfree : attemptEval (net freeAttempt) with
      | ok j => simp [fetchLoop, he, hfree]
      | error e2 => simp [fetchLoop, he, hfree]
    · cases hpro : attemptEval (net proAttempt) with
      | ok j =>
        constructor
        · intro h
          simp [fetchLoop, hpro] at h
        · intro hall
          obtain ⟨e, he⟩ := hall proAttempt (List.mem_cons_self _ _)
          rw [hpro] at he
          simp at he
      | error e =>
        cases hfree : attemptEval (net freeAttempt) with
        | ok j =>
          constructor
          · intro h
            simp [fetchLoop, hpro, hfree] at h
          · intro hall
            obtain ⟨e2, he2⟩ := hall freeAttempt
              (List.mem_cons_of_mem _ (List.mem_cons_self _ _))
            rw [hfree] at he2
            simp at he2
        | error e2 =>
          constructor
          · intro h
            intro a ha
            rcases List.mem_cons.mp ha with rfl | ha2
            · exact ⟨e, hpro⟩
            · rcases List.mem_singleton.mp ha2 with rfl
              exact ⟨e2, hfree⟩
          · intro h
            simp [fetchLoop, hpro, hfree]
    · cases hpro : attemptEval (net proAttempt) with
      | ok j =>
        intro h
        simp [fetchLoop, hpro] at h
      | error e =>
        cases hfree : attemptEval (net freeAttempt) with
        | ok j =>
          intro h
          simp [fetchLoop, hpro, hfree] at h
        | error e2 =>
          intro h
          refine ⟨e2, rfl, ?_⟩
          simp [fetchLoop, hpro, hfree]
  · have hto : tryOrder st = [freeAttempt] := by
      rw [tryOrder, if_neg hb]
      rfl
    rw [fetchCryptoData, hto]
    refine ⟨by simp, fun h => absurd h hb, ?_, ?_⟩
    · cases hfree : attemptEval (net freeAttempt) with
      | ok j =>
        constructor
        · intro h
          simp [fetchLoop, hfree] at h
        · intro hall
          obtain ⟨e2, he2⟩ := hall freeAttempt (List.mem_cons_self _ _)
          rw [hfree] at he2
          simp at he2
      | error e =>
        constructor
        · intro h
          intro a ha
          rcases List.mem_singleton.mp ha with rfl
          exact ⟨e, hfree⟩
        · intro h
          simp [fetchLoop, hfree]
    · cases hfree : attemptEval (net freeAttempt) with
      | ok j =>
        intro h
        simp [fetchLoop, hfree] at h
      | error e =>
        intro h
        refine ⟨e, rfl, ?_⟩
        simp [fetchLoop, hfree]

/-- C3 witness: with a paid-tier configuration and a network where the
paid attempt hits a transport error, the free attempt is still made. -/
theorem fetch_fallback_witness :
    shouldTryPro proTracker = true
    ∧ (∃ e, attemptEval (netFail proAttempt) = .error e)
    ∧ freeAttempt ∈ (fetchCryptoData proTracker netFail).attempted :=
  ⟨by decide, ⟨.transport, rfl⟩,
    (fetch_fallback_spec proTracker netFail).2.1 (by decide) ⟨.transport, rfl⟩⟩

/-- C4 counterexample: a response with HTTP status 300 and a body that
is valid JSON but not an array makes the attempt succeed in the code
(the check is `status < 400` plus JSON-parsability, not 2xx plus
array-shape), contradicting the claimed success condition. -/
theorem attempt_success_counterexample :
    (∃ j, attemptEval (.httpResponse 300 (some .nonArray)) = .ok j)
    ∧ ¬ specAttemptSuccess (.httpResponse 300 (some .nonArray)) :=
  ⟨⟨.nonArray, rfl⟩, fun h => h⟩

/-- C4 (amended): an attempt succeeds exactly when the HTTP status is
below 400 and the body parses as JSON (of any shape); it fails on a
4xx/5xx status, a transport error, or a malformed body; on the first
success the parsed batch is returned immediately and the remaining
attempts are not tried. -/
theorem attempt_protocol_spec (st : TrackerState) (net : Attempt → AttemptOutcome) :
    (∀ o, (∃ j, attemptEval o = .ok j) ↔
        ∃ s j, o = .httpResponse s (some j) ∧ s < 400)
    ∧ (∀ s j, s < 400 → attemptEval (.httpResponse s (some j)) = .ok j)
    ∧ attemptEval .transportFail = .error .transport
    ∧ (∀ s b, 400 ≤ s → attemptEval (.httpResponse s b) = .error (.httpStatus s))
    ∧ (∀ s, s < 400 → attemptEval (.httpResponse s none) = .error .badJson)
    ∧ (∀ a rest j, attemptEval (net a) = .ok j →
        fetchLoop st net (a :: rest) =
          { data := some j, okAttempt := some a, attempted := [a],
            lastError := none, finalState := { st with base_url := a.base_url } }) := by
  refine ⟨?_, ?_, rfl, ?_, ?_, ?_⟩
  · intro o
    cases o with
    | transportFail => simp [attemptEval]
    | httpResponse s b =>
      cases b with
      | none =>
        by_cases h4 : 400 ≤ s <;> simp [attemptEval, h4]
      | some j =>
        by_cases h4 : 400 ≤ s
        · constructor
          · rintro ⟨j2, hj⟩
            rw [attemptEval, if_pos h4] at hj
            exact absurd hj (by simp)
          · rintro ⟨s2, j2, heq, hlt⟩
            injection heq with h1 h2
            omega
        · exact ⟨fun _ => ⟨s, j, rfl, by omega⟩,
            fun _ => ⟨j, by rw [attemptEval, if_neg h4]⟩⟩
  · intro s j h4
    rw [attemptEval, if_neg (by omega)]
  · intro s b h4
    cases b <;> rw [attemptEval, if_pos h4]
  · intro s h4
    rw [attemptEval, if_neg (by omega)]
  · intro a rest j hok
    rw [fetchLoop, hok]

/-- C4 witness: a 200 JSON-array response succeeds on the first attempt
and no further attempt is made. -/
theorem attempt_protocol_witness :
    attemptEval (netOk freeAttempt) = .ok (.arr 5)
    ∧ fetchLoop freeTracker netOk [freeAttempt, proAttempt] =
        { data := some (.arr 5), okAttempt := some freeAttempt,
          attempted := [freeAttempt], lastError := none,
          finalState := { freeTracker with base_url := freeAttempt.base_url } } :=
  ⟨rfl, (attempt_protocol_spec freeTracker netOk).2.2.2.2.2
    freeAttempt [proAttempt] (.arr 5) rfl⟩

/-- C9: with no credential, no tier override and no base-URL override,
every fetch call attempts only the free endpoint and the request
headers contain no credential header of either kind. -/
theorem free_config_spec (p : String) (net : Attempt → AttemptOutcome) :
    tryOrder (trackerInit p none none none) = [freeAttempt]
    ∧ (fetchCryptoData (trackerInit p none none none) net).attempted = [freeAttempt]
    ∧ (∀ b k, ("x-cg-pro-api-key", k) ∉ buildHeaders (trackerInit p none none none) b
        ∧ ("x-cg-demo-api-key", k) ∉ buildHeaders (trackerInit p none none none) b) := by
  have hb : shouldTryPro (trackerInit p none none none) = false := rfl
  have hto : tryOrder (trackerInit p none none none) = [freeAttempt] := by
    rw [tryOrder, hb]
    rfl
  refine ⟨hto, ?_, ?_⟩
  · rw [fetchCryptoData, hto]
    cases hfree : attemptEval (net freeAttempt) with
    | ok j => simp [fetchLoop, hfree]
    | error e => simp [fetchLoop, hfree]
  · intro b k
    have hh : buildHeaders (trackerInit p none none none) b =
        [("User-Agent", "Mozilla/5.0 (Windows NT 10.0; Win64; x64) AppleWebKit/537.36"),
         ("Accept", "application/json")] := by
      rw [buildHeaders]
      rfl
    rw [hh]
    exact ⟨by simp, by simp⟩

theorem fetchLoop_state_spec (st : TrackerState) (net : Attempt → AttemptOutcome) :
    ∀ attempts : List Attempt,
      ((fetchLoop st net attempts).data = none →
        (fetchLoop st net attempts).finalState = st)
      ∧ (∀ a, (fetchLoop st net attempts).okAttempt = some a →
          (fetchLoop st net attempts).finalState = { st with base_url := a.base_url })
      ∧ ((fetchLoop st net attempts).data = none ↔
          (fetchLoop st net attempts).okAttempt = none) := by
  intro attempts
  induction attempts with
  | nil =>
    refine ⟨fun _ => rfl, ?_, by simp [fetchLoop]⟩
    intro a h
    simp [fetchLoop] at h
  | cons a rest ih =>
    cases h : attemptEval (net a) with
    | ok j =>
      refine ⟨?_, ?_, ?_⟩
      · intro hnone
        simp [fetchLoop, h] at hnone
      · intro a2 ha2
        simp only [fetchLoop, h] at ha2 ⊢
        rw [Option.some_inj] at ha2
        rw [ha2]
      · simp [fetchLoop, h]
    | error e =>
      refine ⟨?_, ?_, ?_⟩
      · intro hnone
        simp only [fetchLoop, h] at hnone ⊢
        exact ih.1 hnone
      · intro a2 ha2
        simp only [fetchLoop, h] at ha2 ⊢
        exact ih.2.1 a2 ha2
      · simp only [fetchLoop, h]
        exact ih.2.2

/-- C10: `fetch_crypto_data` mutates only `base_url`: when the call
succeeds, the final state is the initial one with `base_url` replaced
by the successful attempt's base URL; when it returns no data, the
whole tracker state is unchanged. -/
theorem fetch_frame_spec (st : TrackerState) (net : Attempt → AttemptOutcome) :
    ((fetchCryptoData st net).data = none → (fetchCryptoData st net).finalState = st)
    ∧ (∀ a, (fetchCryptoData st net).okAttempt = some a →
        (fetchCryptoData st net).finalState = { st with base_url := a.base_url })
    ∧ ((fetchCryptoData st net).data = none ↔
        (fetchCryptoData st net).okAttempt = none) :=
  fetchLoop_state_spec st net (tryOrder st)

/-- C10 witness: an all-fail call leaves the tracker state unchanged. -/
theorem fetch_frame_witness :
    (fetchCryptoData freeTracker netFail).data = none
    ∧ (fetchCryptoData freeTracker netFail).finalState = freeTracker :=
  ⟨by decide, (fetch_frame_spec freeTracker netFail).1 (by decide)⟩

/-- C1 (amended): for a symbol with exactly two observations in the
window (prices `p0` then `p1` in timestamp order, both positive),
`analyze_volatility` includes the symbol and reports volatility `0`:
the single log-return has zero population standard deviation, so the
product with `sqrt 1` is `0`, not `|ln(p1/p0)|`. -/
theorem volatility_two_obs (db : List Row) (now days : Int) (s : String) (p0 p1 : ℚ)
    (hprices : (symbolRows (getAllData db now days) s).map (fun r => r.price_usd)
      = [p0, p1])
    (_hp0 : 0 < p0) (_hp1 : 0 < p1) :
    ∃ l, analyzeVolatility db now days = some l
      ∧ ∃ e ∈ l, e.symbol = s ∧ e.volatility = 0 := by
  have hlen : (symbolRows (getAllData db now days) s).length = 2 := by
    have h := congrArg List.length hprices
    simpa using h
  obtain ⟨a, b, hab⟩ := List.length_eq_two.mp hlen
  have hmem_a : a ∈ symbolRows (getAllData db now days) s := by
    rw [hab]
    exact List.mem_cons_self _ _
  have hmem_fil : a ∈ (getAllData db now days).filter (fun r => r.symbol == s) := by
    rw [symbolRows] at hmem_a
    exact (List.perm_insertionSort _ _).mem_iff.mp hmem_a
  obtain ⟨hadf, hasym⟩ := List.mem_filter.mp hmem_fil
  rw [beq_iff_eq] at hasym
  have hs_in : s ∈ (getAllData db now days).map (fun r => r.symbol) :=
    List.mem_map.mpr ⟨a, hadf, hasym⟩
  have hne : getAllData db now days ≠ [] := by
    intro h0
    rw [h0] at hadf
    exact List.not_mem_nil a hadf
  have hempty : (getAllData db now days).isEmpty = false :=
    List.isEmpty_eq_false.mpr hne
  refine ⟨List.insertionSort (fun e1 e2 => e2.volatility ≤ e1.volatility)
      ((firstUniques ((getAllData db now days).map (fun r => r.symbol))).filterMap
        (fun t => if 1 < (symbolRows (getAllData db now days) t).length
          then some (mkVolEntry t (symbolRows (getAllData db now days) t))
          else none)), ?_, ?_⟩
  · simp only [analyzeVolatility, hempty]
    rfl
  · refine ⟨mkVolEntry s (symbolRows (getAllData db now days) s), ?_, rfl, ?_⟩
    · rw [(List.perm_insertionSort _ _).mem_iff]
      apply List.mem_filterMap.mpr
      refine ⟨s, mem_firstUniques.mpr hs_in, ?_⟩
      rw [if_pos]
      rw [hlen]
      omega
    · rw [hab]
      exact mkVolEntry_pair_volatility s a b

/-- C1 witness: the two-observation BTC store with prices 100 then 110
is reported with volatility 0. -/
theorem volatility_two_obs_witness :
    (symbolRows (getAllData cDb 10 14) "BTC").map (fun r => r.price_usd) = [100, 110]
    ∧ (0 : ℚ) < 100 ∧ (0 : ℚ) < 110
    ∧ ∃ l, analyzeVolatility cDb 10 14 = some l
        ∧ ∃ e ∈ l, e.symbol = "BTC" ∧ e.volatility = 0 :=
  ⟨by decide, by decide, by decide,
    volatility_two_obs cDb 10 14 "BTC" 100 110 (by decide) (by decide) (by decide)⟩

/-- C1 counterexample: at the store with exactly the BTC prices 100
then 110 the engine reports volatility 0, while the claimed value
`|ln(110/100)|` is nonzero, so the claim fails at this input. -/
theorem volatility_counterexample :
    (∃ l, analyzeVolatility cDb 10 14 = some l
      ∧ l.map (fun e => (e.symbol, e.volatility)) = [("BTC", (0 : ℝ))])
    ∧ |Real.log ((110 : ℝ) / 100)| ≠ 0 := by
  constructor
  · refine ⟨[mkVolEntry "BTC" [vRow1, vRow2]], ?_, ?_⟩
    · have hdf : getAllData cDb 10 14 = [vRow1, vRow2] := by decide
      have hfu : firstUniques ([vRow1, vRow2].map (fun r => r.symbol)) = ["BTC"] := by
        decide
      have hsr : symbolRows [vRow1, vRow2] "BTC" = [vRow1, vRow2] := by decide
      have hemp : ([vRow1, vRow2] : List Row).isEmpty = false := by decide
      simp only [analyzeVolatility, hdf, hfu, hsr, hemp, Bool.false_eq_true,
        if_false, List.filterMap_cons, List.filterMap_nil, List.length_cons,
        List.length_nil]
      norm_num [List.insertionSort]
    · simp only [List.map_cons, List.map_nil]
      rw [mkVolEntry_pair_volatility]
      rfl
  · have h : (0 : ℝ) < Real.log ((110 : ℝ) / 100) := by
      apply Real.log_pos
      norm_num
    exact abs_ne_zero.mpr (ne_of_gt h)
